import Mathlib

/-!
Shallow embedding of the NoFace bootstrap server core (src/index.js):
the Peer Registry (register / list / get / heartbeat / delete / sweep)
and the Signaling Relay (WebSocket register / offer / answer / ICE
candidate forwarding over the `websocketClients` directory).

Times are JavaScript `Date.now()` millisecond values, modelled as `Int`.
The JS `Map` keeps insertion order: `set` on an existing key updates the
entry in place, a new key is appended; the registry is a `List PeerRecord`
with that update discipline. `Array.prototype.sort` with the comparator
`(a, b) => b.lastSeen - a.lastSeen` is a stable sort producing the order
of non-increasing `lastSeen`; a stable sort for a given order is unique,
so it is embedded as the stable insertion sort `sortByLastSeenDesc`.
-/

namespace NoFace

/-- A stored peer record, with exactly the fields built at
`src/index.js` lines 165-178. -/
structure PeerRecord where
  id : String
  ip : String
  port : Int
  name : String
  version : String
  capabilities : List String
  lastSeen : Int
  registeredAt : Int
  updatedAt : Int
  connectionCount : Nat
  userAgent : String
  ipAddress : String
deriving Repr, DecidableEq

/-- The in-memory `peers` map, in insertion order. -/
abbrev Registry := List PeerRecord

/-- `peers.get(id)`. -/
def mapGet (reg : Registry) (id : String) : Option PeerRecord :=
  reg.find? (fun p => p.id = id)

/-- `peers.set(id, peer)`: replace in place if the key exists, else append. -/
def mapSet (reg : Registry) (p : PeerRecord) : Registry :=
  if reg.any (fun q => q.id = p.id) then
    reg.map (fun q => if q.id = p.id then p else q)
  else
    reg ++ [p]

/-- `peers.delete(id)`. -/
def mapDelete (reg : Registry) (id : String) : Registry :=
  reg.filter (fun p => ¬ p.id = id)

/-! ## Validation (`validatePeerData`, src/index.js lines 86-108) -/

/-- JS truthiness of an optional string: `undefined` and `""` are falsy. -/
def strFalsy : Option String → Bool
  | none => true
  | some s => s = ""

/-- One octet of the dotted-quad regex
`25[0-5] | 2[0-4][0-9] | [01]?[0-9][0-9]?`, applied to a full
dot-delimited component. -/
def octetMatch : List Char → Bool
  | [a] => a.isDigit
  | [a, b] => a.isDigit && b.isDigit
  | [a, b, c] =>
      (a = '2' && b = '5' && '0' ≤ c && c ≤ '5')
      || (a = '2' && '0' ≤ b && b ≤ '4' && c.isDigit)
      || ((a = '0' || a = '1') && b.isDigit && c.isDigit)
  | _ => false

/-- Split a character list at every `'.'` (the dot cannot occur inside
a component, so this agrees with `String.split` on the dot). -/
def splitOnDot (cs : List Char) : List (List Char) :=
  match cs with
  | [] => [[]]
  | c :: rest =>
      let tail := splitOnDot rest
      if c = '.' then [] :: tail
      else match tail with
        | [] => [[c]]
        | t :: ts => (c :: t) :: ts

/-- `data.ip.includes(':')`. -/
def containsColon (s : String) : Bool :=
  s.toList.any (fun c => c = ':')

/-- The anchored IPv4 regex test of src/index.js line 102:
four dot-separated components, each matching the octet pattern. -/
def ipv4Match (s : String) : Bool :=
  match splitOnDot s.toList with
  | [a, b, c, d] => octetMatch a && octetMatch b && octetMatch c && octetMatch d
  | _ => false

/-- `validatePeerData({id, ip, port})`: collects every violation in order.
`port` is an `Int` (a JSON number); `!data.port` holds for a missing or
zero port, and `isNaN` is false on integers. -/
def validatePeerData (id ip : Option String) (port : Option Int) : List String :=
  (if strFalsy id ∨ (id.getD "").length < 10 then ["Invalid peer ID"] else [])
  ++ (if strFalsy ip then ["Invalid IP address"] else [])
  ++ (if port.getD 0 = 0 ∨ port.getD 0 < 1 ∨ port.getD 0 > 65535 then
        ["Invalid port number"] else [])
  ++ (if ¬ strFalsy ip ∧ ¬ ipv4Match (ip.getD "") = true
        ∧ ¬ containsColon (ip.getD "") = true then
        ["Invalid IP address format"] else [])

/-! ## Sweep (`cleanupInactivePeers`, src/index.js lines 111-131) -/

/-- `inactiveThreshold = 5 * 60 * 1000`. -/
def inactiveThreshold : Int := 5 * 60 * 1000

/-- `activeThreshold = 2 * 60 * 1000` (the active-listing window). -/
def activeThreshold : Int := 2 * 60 * 1000

/-- `cleanupInactivePeers`: deletes every peer with
`now - peer.lastSeen > inactiveThreshold`. -/
def cleanupInactivePeers (now : Int) (reg : Registry) : Registry :=
  reg.filter (fun p => ¬ now - p.lastSeen > inactiveThreshold)

/-- The active-peer test used by `GET /peers?active=true`, `/register`'s
network summary and `GET /status`: `now - peer.lastSeen < activeThreshold`. -/
def isActive (now : Int) (p : PeerRecord) : Bool :=
  now - p.lastSeen < activeThreshold

/-! ## POST /register (src/index.js lines 143-218) -/

/-- The request body `{id, ip, port, name?, capabilities?, version?}`;
absent fields are `none`. -/
structure RegisterInput where
  id : Option String
  ip : Option String
  port : Option Int
  name : Option String
  capabilities : Option (List String)
  version : Option String
deriving Repr, DecidableEq

/-- The `peer` object echoed by a successful registration
(src/index.js lines 196-203). -/
structure RegisterPeerView where
  id : String
  name : String
  version : String
  capabilities : List String
  registeredAt : Int
  updatedAt : Int
deriving Repr, DecidableEq

/-- The `network` summary of a successful registration
(src/index.js lines 204-207). -/
structure NetworkSummary where
  totalPeers : Nat
  activePeers : Nat
deriving Repr, DecidableEq

/-- A successful registration response body. -/
structure RegisterResponse where
  peer : RegisterPeerView
  network : NetworkSummary
deriving Repr, DecidableEq

/-- The `POST /register` handler: validation, upsert, response.
Failure carries the full `details` list and returns before any mutation. -/
def register (reg : Registry) (inp : RegisterInput) (now : Int)
    (userAgent ipAddress : String) :
    Except (List String) RegisterResponse × Registry :=
  let validationErrors := validatePeerData inp.id inp.ip inp.port
  if validationErrors.length > 0 then
    (.error validationErrors, reg)
  else
    let id := inp.id.getD ""
    let portNum := inp.port.getD 0
    let existingPeer := mapGet reg id
    let peer : PeerRecord :=
      { id := id
        ip := inp.ip.getD ""
        port := portNum
        name := match inp.name with
          | some n => if n = "" then "Peer-" ++ id.take 8 else n
          | none => "Peer-" ++ id.take 8
        version := inp.version.getD "1.0.0"
        capabilities := inp.capabilities.getD []
        lastSeen := now
        registeredAt := match existingPeer with
          | some e => e.registeredAt
          | none => now
        updatedAt := now
        connectionCount := match existingPeer with
          | some e => e.connectionCount + 1
          | none => 1
        userAgent := userAgent
        ipAddress := ipAddress }
    let reg' := mapSet reg peer
    (.ok
      { peer :=
          { id := peer.id, name := peer.name, version := peer.version
            capabilities := peer.capabilities
            registeredAt := peer.registeredAt, updatedAt := peer.updatedAt }
        network :=
          { totalPeers := reg'.length
            activePeers := (reg'.filter (isActive now)).length } },
      reg')

/-! ## GET /peers (src/index.js lines 225-300) -/

/-- The public projection used by both the peer listing and the
single-peer lookup (src/index.js lines 262-272 and 321-331). -/
structure PublicPeer where
  id : String
  ip : String
  port : Int
  name : String
  version : String
  capabilities : List String
  lastSeen : Int
  registeredAt : Int
  connectionCount : Nat
deriving Repr, DecidableEq

/-- Drop `userAgent` and `ipAddress`, keep the rest. -/
def publicView (p : PeerRecord) : PublicPeer :=
  { id := p.id, ip := p.ip, port := p.port, name := p.name
    version := p.version, capabilities := p.capabilities
    lastSeen := p.lastSeen, registeredAt := p.registeredAt
    connectionCount := p.connectionCount }

/-- Query parameters of `GET /peers`. `limit`/`offset` are `none` when
missing or unparseable (`parseInt` gave `NaN`). -/
structure ListQuery where
  limit : Option Int
  active : Bool
  capability : Option String
  version : Option String
  offset : Option Int
deriving Repr, DecidableEq

/-- `Math.min(parseInt(req.query.limit) || 50, 100)`. -/
def effLimit (q : ListQuery) : Int :=
  min (if q.limit.getD 0 = 0 then 50 else q.limit.getD 0) 100

/-- `parseInt(req.query.offset) || 0`. -/
def effOffset (q : ListQuery) : Int :=
  q.offset.getD 0

/-- First filter of GET /peers: keep active peers when `active=true`. -/
def activeStage (q : ListQuery) (now : Int) (l : List PeerRecord) :
    List PeerRecord :=
  if q.active then l.filter (isActive now) else l

/-- Second filter: by capability when the parameter is truthy. -/
def capabilityStage (q : ListQuery) (l : List PeerRecord) : List PeerRecord :=
  match q.capability with
  | some c => if c = "" then l else l.filter (fun p => p.capabilities.contains c)
  | none => l

/-- Third filter: by exact version when the parameter is truthy. -/
def versionStage (q : ListQuery) (l : List PeerRecord) : List PeerRecord :=
  match q.version with
  | some v => if v = "" then l else l.filter (fun p => p.version = v)
  | none => l

/-- The three filters of GET /peers, in source order; an empty
`capability` or `version` string is falsy, so its filter is skipped. -/
def filteredPeers (reg : Registry) (q : ListQuery) (now : Int) :
    List PeerRecord :=
  versionStage q (capabilityStage q (activeStage q now reg))

/-- Stable insert for the order of non-increasing `lastSeen`: the new
element goes before every strictly-older entry and after all entries
at least as recent that preceded it. -/
def insertByLastSeen (p : PeerRecord) : List PeerRecord → List PeerRecord
  | [] => [p]
  | q :: qs =>
      if p.lastSeen ≥ q.lastSeen then p :: q :: qs
      else q :: insertByLastSeen p qs

/-- `peerList.sort((a, b) => b.lastSeen - a.lastSeen)`: the stable sort
by `lastSeen` descending, as a stable insertion sort. -/
def sortByLastSeenDesc : List PeerRecord → List PeerRecord
  | [] => []
  | p :: ps => insertByLastSeen p (sortByLastSeenDesc ps)

/-- `Array.prototype.slice(start, stop)` with JS clamping of negative
and out-of-range indices. -/
def jsSlice (l : List PublicPeer) (start stop : Int) : List PublicPeer :=
  let len : Int := l.length
  let s := if start < 0 then max (len + start) 0 else min start len
  let e := if stop < 0 then max (len + stop) 0 else min stop len
  ((l.drop s.toNat).take (e - s).toNat)

/-- The `pagination` object of the listing response. -/
structure Pagination where
  total : Nat
  limit : Int
  offset : Int
  hasMore : Bool
deriving Repr, DecidableEq

/-- A `GET /peers` response body (the echoed `filters` object simply
repeats the query and is omitted). -/
structure ListResponse where
  peers : List PublicPeer
  pagination : Pagination
deriving Repr, DecidableEq

/-- The `GET /peers` handler: filter, stable sort, paginate, project. -/
def listPeers (reg : Registry) (q : ListQuery) (now : Int) : ListResponse :=
  let limit := effLimit q
  let offset := effOffset q
  let peerList := sortByLastSeenDesc (filteredPeers reg q now)
  let total := peerList.length
  let page := jsSlice (peerList.map publicView) offset (offset + limit)
  { peers := page
    pagination :=
      { total := total, limit := limit, offset := offset
        hasMore := offset + limit < total } }

/-! ## GET /peers/:id, DELETE /peers/:id, POST /peers/:id/heartbeat
(src/index.js lines 306-342, 412-449, 455-484) -/

/-- The single not-found error kind of the keyed routes. -/
inductive PeerErr where
  | notFound
deriving Repr, DecidableEq

/-- `GET /peers/:id`: a read-only lookup; the registry passes through
unchanged. -/
def getPeer (reg : Registry) (id : String) :
    Except PeerErr PublicPeer × Registry :=
  match mapGet reg id with
  | none => (.error .notFound, reg)
  | some p => (.ok (publicView p), reg)

/-- The `{id, name}` echo of a successful unregistration. -/
structure DeleteView where
  id : String
  name : String
deriving Repr, DecidableEq

/-- `DELETE /peers/:id`. -/
def deletePeer (reg : Registry) (id : String) :
    Except PeerErr DeleteView × Registry :=
  match mapGet reg id with
  | none => (.error .notFound, reg)
  | some p => (.ok { id := p.id, name := p.name }, mapDelete reg id)

/-- `POST /peers/:id/heartbeat`: refresh `lastSeen` and return it. -/
def heartbeat (reg : Registry) (id : String) (now : Int) :
    Except PeerErr Int × Registry :=
  match mapGet reg id with
  | none => (.error .notFound, reg)
  | some p => (.ok now, mapSet reg { p with lastSeen := now })

/-! ## Signaling relay (src/index.js lines 589-699)

A channel handle is a connection identifier; `websocketClients` maps
peer ids to channels, and each connection closure holds one mutable
`peerId` local, modelled per channel in `curPeer`. `openChans` is the
set of channels whose `readyState` is `OPEN`. -/

abbrev ChanId := Nat

/-- One entry of the `peer_list` snapshot sent on WebSocket
registration (src/index.js lines 611-616): exactly the four fields. -/
structure PeerListEntry where
  id : String
  name : String
  capabilities : List String
  lastSeen : Int
deriving Repr, DecidableEq

/-- Inbound WebSocket message variants handled by the switch at
src/index.js lines 602-638. -/
inductive WSMsg where
  | register (peerId : String)
  | peerOffer (fromId toId offer : String)
  | peerAnswer (fromId toId answer : String)
  | iceCandidate (fromId toId candidate : String)
  | ping
deriving Repr, DecidableEq

/-- Outbound WebSocket payloads produced by the relay. -/
inductive WSOut where
  | peerList (peers : List PeerListEntry)
  | peerOffer (fromId offer : String)
  | peerAnswer (fromId answer : String)
  | iceCandidate (fromId candidate : String)
  | pong
deriving Repr, DecidableEq

/-- Observable effects of handling one message: a send on a channel,
or a warn-level log line (the delivery-failure path). -/
inductive WSEffect where
  | send (dst : ChanId) (msg : WSOut)
  | logWarn (text : String)
deriving Repr, DecidableEq

/-- Relay-side mutable state: the `websocketClients` map plus each
connection's `peerId` local variable. -/
structure RelayState where
  clients : List (String × ChanId)
  curPeer : List (ChanId × String)
deriving Repr, DecidableEq

/-- `websocketClients.get(id)`. -/
def clientsGet (st : RelayState) (id : String) : Option ChanId :=
  (st.clients.find? (fun e => e.1 = id)).map (fun e => e.2)

/-- `websocketClients.set(id, ws)`: replace in place or append. -/
def clientsSet (cs : List (String × ChanId)) (id : String) (c : ChanId) :
    List (String × ChanId) :=
  if cs.any (fun e => e.1 = id) then
    cs.map (fun e => if e.1 = id then (id, c) else e)
  else
    cs ++ [(id, c)]

/-- Record the connection-local `peerId := data.peerId` assignment. -/
def curSet (cur : List (ChanId × String)) (c : ChanId) (p : String) :
    List (ChanId × String) :=
  if cur.any (fun e => e.1 = c) then
    cur.map (fun e => if e.1 = c then (c, p) else e)
  else
    cur ++ [(c, p)]

/-- `handlePeerOffer` / `handlePeerAnswer` / `handleIceCandidate`
(src/index.js lines 657-699): forward if the target is mapped to an
open channel, else one warn log, nothing more in either case. -/
def relayForward (st : RelayState) (openChans : List ChanId)
    (toId : String) (out : WSOut) : List WSEffect :=
  match clientsGet st toId with
  | some target =>
      if target ∈ openChans then [.send target out]
      else [.logWarn ("Target peer not found or not connected: " ++ toId)]
  | none => [.logWarn ("Target peer not found or not connected: " ++ toId)]

/-- The message switch of one WebSocket connection
(src/index.js lines 597-638): takes the registry and full relay state,
returns the registry, the new state and the effects. -/
def wsMessage (reg : Registry) (st : RelayState) (openChans : List ChanId)
    (c : ChanId) (m : WSMsg) : Registry × RelayState × List WSEffect :=
  match m with
  | .register peerId =>
      let st' : RelayState :=
        { clients := clientsSet st.clients peerId c
          curPeer := curSet st.curPeer c peerId }
      let snapshot := reg.map (fun p =>
        PeerListEntry.mk p.id p.name p.capabilities p.lastSeen)
      (reg, st', [.send c (.peerList snapshot)])
  | .peerOffer fromId toId offer =>
      (reg, st, relayForward st openChans toId (.peerOffer fromId offer))
  | .peerAnswer fromId toId answer =>
      (reg, st, relayForward st openChans toId (.peerAnswer fromId answer))
  | .iceCandidate fromId toId candidate =>
      (reg, st, relayForward st openChans toId (.iceCandidate fromId candidate))
  | .ping =>
      (reg, st, [.send c .pong])

/-- The connection close handler (src/index.js lines 644-649): if this
connection had announced a peer id, delete that directory entry. -/
def wsClose (st : RelayState) (c : ChanId) : RelayState :=
  match (st.curPeer.find? (fun e => e.1 = c)).map (fun e => e.2) with
  | some p =>
      { clients := st.clients.filter (fun e => ¬ e.1 = p)
        curPeer := st.curPeer.filter (fun e => ¬ e.1 = c) }
  | none => st

/-- A register-message or close event, for invariant statements over
event sequences. -/
inductive WSEvent where
  | register (c : ChanId) (peerId : String)
  | close (c : ChanId)
deriving Repr, DecidableEq

/-- One event's effect on the relay state (registry and effects ignored). -/
def wsStep (st : RelayState) (e : WSEvent) : RelayState :=
  match e with
  | .register c p => (wsMessage [] st [] c (.register p)).2.1
  | .close c => wsClose st c

/-- The peer ids a given channel handle is bound to in the directory. -/
def boundIds (st : RelayState) (c : ChanId) : List String :=
  (st.clients.filter (fun e => e.2 = c)).map (fun e => e.1)

/-- A sample stored record for concrete instances, with a given id
suffix and `lastSeen`. -/
def samplePeer (i : Nat) (lastSeen : Int) : PeerRecord :=
  { id := "sample-peer-" ++ toString i, ip := "10.0.0.1", port := 8080
    name := "n", version := "1.0.0", capabilities := ["websocket"]
    lastSeen := lastSeen, registeredAt := 0, updatedAt := lastSeen
    connectionCount := 1, userAgent := "ua", ipAddress := "addr" }

/-! ## Lemmas about the map operations -/

theorem find?_map_replace (reg : Registry) (p : PeerRecord) :
    (reg.map (fun q => if q.id = p.id then p else q)).find?
        (fun q => q.id = p.id) =
      if reg.any (fun q => q.id = p.id) then some p else none := by
  induction reg with
  | nil => rfl
  | cons q qs ih =>
      by_cases hq : q.id = p.id
      · simp [List.find?_cons, hq]
      · simp [List.find?_cons, hq, ih]

theorem mapGet_mapSet_self (reg : Registry) (p : PeerRecord) :
    mapGet (mapSet reg p) p.id = some p := by
  unfold mapGet mapSet
  by_cases h : reg.any (fun q => q.id = p.id) = true
  · rw [if_pos h, find?_map_replace]
    simp [h]
  · rw [if_neg h, List.find?_append]
    have hn : reg.find? (fun q => q.id = p.id) = none := by
      rw [List.find?_eq_none]
      intro x hx
      have := List.any_eq_false.mp (Bool.eq_false_iff.mpr h) x hx
      simpa using this
    simp [hn]

theorem mapGet_some_id {reg : Registry} {id : String} {p : PeerRecord}
    (h : mapGet reg id = some p) : p.id = id := by
  have := List.find?_some h
  simpa using this

/-! ## C1 -/

/-- Claim C1: a successful `Register(id, ip, port, ...)` upserts — when a
record for `id` already exists the stored record keeps its original
`registeredAt` and its `connectionCount` increases by exactly 1; when no
record exists a fresh record is created with `connectionCount = 1`; in
both cases `lastSeen` and `updatedAt` are set to the same current time. -/
theorem register_upsert_spec (reg : Registry) (inp : RegisterInput)
    (now : Int) (ua ipa : String)
    (hok : validatePeerData inp.id inp.ip inp.port = []) :
    (∃ r, (register reg inp now ua ipa).1 = .ok r)
    ∧ (∀ e, mapGet reg (inp.id.getD "") = some e →
        ∃ p, mapGet (register reg inp now ua ipa).2 (inp.id.getD "") = some p
          ∧ p.registeredAt = e.registeredAt
          ∧ p.connectionCount = e.connectionCount + 1
          ∧ p.lastSeen = now ∧ p.updatedAt = now)
    ∧ (mapGet reg (inp.id.getD "") = none →
        ∃ p, mapGet (register reg inp now ua ipa).2 (inp.id.getD "") = some p
          ∧ p.connectionCount = 1 ∧ p.registeredAt = now
          ∧ p.lastSeen = now ∧ p.updatedAt = now) := by
  refine ⟨?_, ?_, ?_⟩
  · simp [register, hok]
  · intro e he
    simp only [register, hok]
    simp only [List.length_nil, gt_iff_lt, lt_self_iff_false, if_false, he]
    exact ⟨_, mapGet_mapSet_self reg _, rfl, rfl, rfl, rfl⟩
  · intro he
    simp only [register, hok]
    simp only [List.length_nil, gt_iff_lt, lt_self_iff_false, if_false, he]
    exact ⟨_, mapGet_mapSet_self reg _, rfl, rfl, rfl, rfl⟩

/-- Witness for C1: registering a concrete valid peer into a registry
that already holds it, and into the empty registry. -/
theorem register_upsert_spec_witness :
    validatePeerData (some "sample-peer-7") (some "10.0.0.1") (some 8080) = []
    ∧ (∃ p, mapGet
        (register [samplePeer 7 0]
          ⟨some "sample-peer-7", some "10.0.0.1", some 8080, none, none, none⟩
          42 "ua" "addr").2 "sample-peer-7" = some p
        ∧ p.registeredAt = (samplePeer 7 0).registeredAt
        ∧ p.connectionCount = (samplePeer 7 0).connectionCount + 1
        ∧ p.lastSeen = 42 ∧ p.updatedAt = 42) := by
  have h := register_upsert_spec [samplePeer 7 0]
    ⟨some "sample-peer-7", some "10.0.0.1", some 8080, none, none, none⟩
    42 "ua" "addr" (by decide)
  exact ⟨by decide, h.2.1 (samplePeer 7 0) (by decide)⟩

/-! ## C2 -/

/-- Claim C2: a record is active (and kept by the active-only listing
filter) iff `now - lastSeen < 2` minutes, strictly; the sweep removes a
record iff `now - lastSeen > 5` minutes, strictly; the two constants are
distinct; a record 3 minutes old is inactive yet not swept, one at
5m+1s is swept, one at 4m59s is kept. -/
theorem active_and_sweep_windows :
    (∀ (now : Int) (p : PeerRecord),
        isActive now p = true ↔ now - p.lastSeen < 2 * 60 * 1000)
    ∧ (∀ (reg : Registry) (limit offset : Option Int) (now : Int),
        filteredPeers reg ⟨limit, true, none, none, offset⟩ now
          = reg.filter (isActive now))
    ∧ (∀ (now : Int) (reg : Registry) (p : PeerRecord),
        p ∈ cleanupInactivePeers now reg
          ↔ p ∈ reg ∧ ¬ now - p.lastSeen > 5 * 60 * 1000)
    ∧ activeThreshold ≠ inactiveThreshold
    ∧ (isActive 180000 (samplePeer 1 0) = false
        ∧ cleanupInactivePeers 180000 [samplePeer 1 0] = [samplePeer 1 0])
    ∧ cleanupInactivePeers 301000 [samplePeer 2 0] = []
    ∧ cleanupInactivePeers 299000 [samplePeer 3 0] = [samplePeer 3 0] := by
  refine ⟨?_, ?_, ?_, by decide, by decide, by decide, by decide⟩
  · intro now p
    simp [isActive, activeThreshold]
  · intro reg limit offset now
    simp [filteredPeers, versionStage, capabilityStage, activeStage]
  · intro now reg p
    simp [cleanupInactivePeers, inactiveThreshold, List.mem_filter]

/-! ## C4 -/

/-- Claim C4: validation checks all three constraints — `id` present with
length at least 10, `ip` present and either dotted-quad IPv4 or
containing a colon, `port` numeric in `[1, 65535]` — registration fails
iff at least one is violated, the failure carries every violated
constraint at once (a short id and a bad port are reported together),
and a failed registration leaves the registry unchanged. -/
theorem validation_spec :
    (∀ (id ip : Option String) (port : Option Int),
        validatePeerData id ip port = []
          ↔ ((∃ s, id = some s ∧ 10 ≤ s.length)
             ∧ (∃ s, ip = some s ∧ ¬ s = ""
                  ∧ (ipv4Match s = true ∨ containsColon s = true))
             ∧ (∃ n, port = some n ∧ 1 ≤ n ∧ n ≤ 65535)))
    ∧ (∀ (reg : Registry) (inp : RegisterInput) (now : Int) (ua ipa : String),
        ¬ validatePeerData inp.id inp.ip inp.port = [] →
          (register reg inp now ua ipa).1
              = .error (validatePeerData inp.id inp.ip inp.port)
            ∧ (register reg inp now ua ipa).2 = reg)
    ∧ ("Invalid peer ID"
          ∈ validatePeerData (some "short") (some "1.2.3.4") (some 99999)
        ∧ "Invalid port number"
          ∈ validatePeerData (some "short") (some "1.2.3.4") (some 99999)) := by
  refine ⟨?_, ?_, by decide, by decide⟩
  · intro id ip port
    cases id with
    | none => simp [validatePeerData, strFalsy]
    | some s =>
      cases ip with
      | none => simp [validatePeerData, strFalsy]
      | some t =>
        cases port with
        | none => simp [validatePeerData, strFalsy]
        | some n =>
          simp only [validatePeerData, strFalsy, Option.getD_some]
          constructor
          · intro h
            rcases List.append_eq_nil.mp h with ⟨h123, h4⟩
            rcases List.append_eq_nil.mp h123 with ⟨h12, h3⟩
            rcases List.append_eq_nil.mp h12 with ⟨h1, h2⟩
            have c1 : ¬ (decide (s = "") = true ∨ s.length < 10) := by
              intro hc; rw [if_pos hc] at h1; exact List.cons_ne_nil _ _ h1
            have c2 : ¬ (decide (t = "") = true) := by
              intro hc; rw [if_pos hc] at h2; exact List.cons_ne_nil _ _ h2
            have c3 : ¬ (n = 0 ∨ n < 1 ∨ n > 65535) := by
              intro hc; rw [if_pos hc] at h3; exact List.cons_ne_nil _ _ h3
            have c4 : ¬ (¬ decide (t = "") = true ∧ ¬ ipv4Match t = true
                ∧ ¬ containsColon t = true) := by
              intro hc; rw [if_pos hc] at h4; exact List.cons_ne_nil _ _ h4
            push_neg at c1 c3
            have hipor : ipv4Match t = true ∨ containsColon t = true := by
              by_cases hip4 : ipv4Match t = true
              · exact Or.inl hip4
              · by_cases hcol : containsColon t = true
                · exact Or.inr hcol
                · exact absurd ⟨c2, hip4, hcol⟩ c4
            exact ⟨⟨s, rfl, by omega⟩, ⟨t, rfl, by simpa using c2, hipor⟩,
              ⟨n, rfl, by omega, by omega⟩⟩
          · rintro ⟨⟨s', hs, hlen⟩, ⟨t', ht, htne, hip⟩, ⟨n', hn, h1n, h2n⟩⟩
            cases Option.some.inj hs
            cases Option.some.inj ht
            cases Option.some.inj hn
            have hc1 : ¬ (decide (s = "") = true ∨ s.length < 10) := by
              rintro (hc | hc)
              · have : s = "" := by simpa using hc
                subst this; simp at hlen
              · omega
            have hc4 : ¬ (¬ decide (t = "") = true ∧ ¬ ipv4Match t = true
                ∧ ¬ containsColon t = true) := by
              intro hc
              rcases hip with h | h
              · exact hc.2.1 h
              · exact hc.2.2 h
            rw [if_neg hc1, if_neg (by simpa using htne), if_neg (by omega),
              if_neg hc4]
            rfl
  · intro reg inp now ua ipa h
    have hpos : (validatePeerData inp.id inp.ip inp.port).length > 0 := by
      cases hv : validatePeerData inp.id inp.ip inp.port with
      | nil => exact absurd hv h
      | cons a l => simp
    constructor <;> simp [register, if_pos hpos]

/-- Witness for C4: a concrete failing registration — short id and
out-of-range port — is rejected with both violations listed and leaves a
concrete one-record registry unchanged. -/
theorem validation_spec_witness :
    ¬ validatePeerData (some "short") (some "1.2.3.4") (some 99999) = []
    ∧ (register [samplePeer 9 0]
          ⟨some "short", some "1.2.3.4", some 99999, none, none, none⟩
          5 "ua" "addr").1
        = .error (validatePeerData (some "short") (some "1.2.3.4") (some 99999))
    ∧ (register [samplePeer 9 0]
          ⟨some "short", some "1.2.3.4", some 99999, none, none, none⟩
          5 "ua" "addr").2 = [samplePeer 9 0] := by
  have h := validation_spec.2.1 [samplePeer 9 0]
    ⟨some "short", some "1.2.3.4", some 99999, none, none, none⟩
    5 "ua" "addr" (by decide)
  exact ⟨by decide, h.1, h.2⟩

/-! ## Lemmas about the stable sort -/

theorem insertByLastSeen_perm (p : PeerRecord) (l : List PeerRecord) :
    List.Perm (insertByLastSeen p l) (p :: l) := by
  induction l with
  | nil => exact List.Perm.refl _
  | cons q qs ih =>
      by_cases h : p.lastSeen ≥ q.lastSeen
      · simp only [insertByLastSeen, if_pos h]
        exact List.Perm.refl _
      · simp only [insertByLastSeen, if_neg h]
        exact (ih.cons q).trans (List.Perm.swap p q qs)

theorem pairwise_insertByLastSeen {p : PeerRecord} {l : List PeerRecord}
    (h : l.Pairwise (fun a b => b.lastSeen ≤ a.lastSeen)) :
    (insertByLastSeen p l).Pairwise (fun a b => b.lastSeen ≤ a.lastSeen) := by
  induction l with
  | nil => simp [insertByLastSeen]
  | cons q qs ih =>
      rcases List.pairwise_cons.mp h with ⟨hq, hqs⟩
      by_cases hpq : p.lastSeen ≥ q.lastSeen
      · simp only [insertByLastSeen, if_pos hpq]
        refine List.pairwise_cons.mpr ⟨?_, h⟩
        intro x hx
        rcases List.mem_cons.mp hx with rfl | hx
        · exact hpq
        · exact le_trans (hq x hx) hpq
      · simp only [insertByLastSeen, if_neg hpq]
        refine List.pairwise_cons.mpr ⟨?_, ih hqs⟩
        intro x hx
        have hx' : x ∈ p :: qs := (insertByLastSeen_perm p qs).mem_iff.mp hx
        rcases List.mem_cons.mp hx' with rfl | hx'
        · exact le_of_lt (lt_of_not_ge hpq)
        · exact hq x hx'

theorem filter_insertByLastSeen (p : PeerRecord) (l : List PeerRecord) (t : Int) :
    (insertByLastSeen p l).filter (fun q => q.lastSeen = t)
      = if p.lastSeen = t
          then p :: l.filter (fun q => q.lastSeen = t)
          else l.filter (fun q => q.lastSeen = t) := by
  induction l with
  | nil =>
      by_cases hp : p.lastSeen = t <;>
        simp [insertByLastSeen, List.filter_cons, hp]
  | cons q qs ih =>
      by_cases hpq : p.lastSeen ≥ q.lastSeen
      · simp only [insertByLastSeen, if_pos hpq, List.filter_cons,
          decide_eq_true_eq]
      · simp only [insertByLastSeen, if_neg hpq, List.filter_cons,
          decide_eq_true_eq, ih]
        split_ifs <;> first | rfl | omega

theorem sortByLastSeenDesc_perm (l : List PeerRecord) :
    List.Perm (sortByLastSeenDesc l) l := by
  induction l with
  | nil => exact List.Perm.refl _
  | cons p ps ih =>
      exact (insertByLastSeen_perm p (sortByLastSeenDesc ps)).trans (ih.cons p)

theorem sortByLastSeenDesc_pairwise (l : List PeerRecord) :
    (sortByLastSeenDesc l).Pairwise (fun a b => b.lastSeen ≤ a.lastSeen) := by
  induction l with
  | nil => simp [sortByLastSeenDesc]
  | cons p ps ih => exact pairwise_insertByLastSeen ih

theorem sortByLastSeenDesc_filter_key (l : List PeerRecord) (t : Int) :
    (sortByLastSeenDesc l).filter (fun q => q.lastSeen = t)
      = l.filter (fun q => q.lastSeen = t) := by
  induction l with
  | nil => rfl
  | cons p ps ih =>
      rw [sortByLastSeenDesc, filter_insertByLastSeen, List.filter_cons]
      by_cases hp : p.lastSeen = t <;> simp [hp, ih]

/-! ## C3 -/

/-- 120 stored peers, used for the pagination instance of the claim. -/
def reg120 : Registry := (List.range 120).map (fun i => samplePeer i 0)

set_option maxRecDepth 10000 in
/-- Claim C3: the listing sorts the filtered records by `lastSeen`
descending with ties kept in insertion order, `limit` defaults to 50
and caps at 100, `offset` defaults to 0, `total` is the
filtered-but-unpaginated count, `hasMore = offset + limit < total`, and
the page is the corresponding slice of the sorted records; with 120
peers, `limit=50, offset=100` returns 20 records with `hasMore=false`
and `limit=50, offset=0` returns 50 with `hasMore=true`. -/
theorem list_pagination_spec :
    (∀ (reg : Registry) (q : ListQuery) (now : Int),
        List.Perm (sortByLastSeenDesc (filteredPeers reg q now))
          (filteredPeers reg q now)
        ∧ (sortByLastSeenDesc (filteredPeers reg q now)).Pairwise
            (fun a b => b.lastSeen ≤ a.lastSeen)
        ∧ (∀ t, (sortByLastSeenDesc (filteredPeers reg q now)).filter
              (fun p => p.lastSeen = t)
            = (filteredPeers reg q now).filter (fun p => p.lastSeen = t))
        ∧ (listPeers reg q now).pagination.total
            = (filteredPeers reg q now).length
        ∧ (listPeers reg q now).pagination.hasMore
            = decide (effOffset q + effLimit q
                < ((filteredPeers reg q now).length : Int))
        ∧ (listPeers reg q now).peers
            = jsSlice ((sortByLastSeenDesc (filteredPeers reg q now)).map
                publicView) (effOffset q) (effOffset q + effLimit q))
    ∧ (∀ (a : Bool) (c v : Option String) (o : Option Int),
        effLimit ⟨none, a, c, v, o⟩ = 50)
    ∧ (∀ q : ListQuery, effLimit q ≤ 100)
    ∧ (∀ (l : Option Int) (a : Bool) (c v : Option String),
        effOffset ⟨l, a, c, v, none⟩ = 0)
    ∧ ((listPeers reg120 ⟨some 50, false, none, none, some 100⟩ 0).peers.length
          = 20
        ∧ (listPeers reg120
            ⟨some 50, false, none, none, some 100⟩ 0).pagination.hasMore = false
        ∧ (listPeers reg120 ⟨some 50, false, none, none, none⟩ 0).peers.length
          = 50
        ∧ (listPeers reg120
            ⟨some 50, false, none, none, none⟩ 0).pagination.hasMore = true) := by
  refine ⟨?_, ?_, ?_, ?_, by decide, by decide, by decide, by decide⟩
  · intro reg q now
    refine ⟨sortByLastSeenDesc_perm _, sortByLastSeenDesc_pairwise _,
      fun t => sortByLastSeenDesc_filter_key _ t, ?_, ?_, rfl⟩
    · simp [listPeers, (sortByLastSeenDesc_perm (filteredPeers reg q now)).length_eq]
    · simp [listPeers, (sortByLastSeenDesc_perm (filteredPeers reg q now)).length_eq]
  · intro a c v o
    simp [effLimit]
  · intro q
    exact min_le_right _ _
  · intro l a c v
    simp [effOffset]

/-! ## C5 -/

/-- Claim C5: a relay message whose target id is mapped to an open
channel is forwarded as exactly `{type, from, payload}` with the payload
unchanged; when the id is unbound or the channel not writable the
message is dropped with a single logged delivery-failure event — no
forward, no retry or queue, and nothing sent back to the sender. -/
theorem relay_forwarding_spec (reg : Registry) (st : RelayState)
    (openChans : List ChanId) (c : ChanId) (fromId toId payload : String) :
    (∀ target, clientsGet st toId = some target → target ∈ openChans →
        wsMessage reg st openChans c (.peerOffer fromId toId payload)
            = (reg, st, [.send target (.peerOffer fromId payload)])
          ∧ wsMessage reg st openChans c (.peerAnswer fromId toId payload)
            = (reg, st, [.send target (.peerAnswer fromId payload)])
          ∧ wsMessage reg st openChans c (.iceCandidate fromId toId payload)
            = (reg, st, [.send target (.iceCandidate fromId payload)]))
    ∧ ((clientsGet st toId = none
          ∨ ∃ target, clientsGet st toId = some target ∧ target ∉ openChans) →
        wsMessage reg st openChans c (.peerOffer fromId toId payload)
            = (reg, st,
              [.logWarn ("Target peer not found or not connected: " ++ toId)])
          ∧ wsMessage reg st openChans c (.peerAnswer fromId toId payload)
            = (reg, st,
              [.logWarn ("Target peer not found or not connected: " ++ toId)])
          ∧ wsMessage reg st openChans c (.iceCandidate fromId toId payload)
            = (reg, st,
              [.logWarn ("Target peer not found or not connected: " ++ toId)])) := by
  constructor
  · intro target hmap hopen
    refine ⟨?_, ?_, ?_⟩ <;> simp [wsMessage, relayForward, hmap, hopen]
  · rintro (hnone | ⟨target, hmap, hclosed⟩)
    · refine ⟨?_, ?_, ?_⟩ <;> simp [wsMessage, relayForward, hnone]
    · refine ⟨?_, ?_, ?_⟩ <;> simp [wsMessage, relayForward, hmap, hclosed]

/-- Witness for C5: with "B" bound to open channel 3, an offer from "A"
to "B" is forwarded verbatim to channel 3; with an empty directory the
same offer yields only the delivery-failure log. -/
theorem relay_forwarding_spec_witness :
    wsMessage [] ⟨[("B", 3)], []⟩ [3] 1 (.peerOffer "A" "B" "OFFER-X")
        = ([], ⟨[("B", 3)], []⟩, [.send 3 (.peerOffer "A" "OFFER-X")])
    ∧ wsMessage [] ⟨[], []⟩ [3] 1 (.peerOffer "A" "B" "OFFER-X")
        = ([], ⟨[], []⟩,
          [.logWarn ("Target peer not found or not connected: " ++ "B")]) :=
  ⟨((relay_forwarding_spec [] ⟨[("B", 3)], []⟩ [3] 1 "A" "B" "OFFER-X").1
      3 (by decide) (by decide)).1,
   ((relay_forwarding_spec [] ⟨[], []⟩ [3] 1 "A" "B" "OFFER-X").2
      (Or.inl (by decide))).1⟩

/-! ## C6 -/

/-- Claim C6 is refuted: after channel 0 sends `register` with peer id
"X" and then `register` with peer id "Y", the directory binds channel 0
to both ids, so a channel handle is not bound to at most one peer id. -/
theorem channel_binding_cex :
    ¬ (boundIds (List.foldl wsStep ⟨[], []⟩
        [WSEvent.register 0 "X", WSEvent.register 0 "Y"]) 0).length ≤ 1 := by
  decide

theorem clientsSet_keys (cs : List (String × ChanId)) (id : String)
    (c : ChanId) :
    (clientsSet cs id c).map Prod.fst
      = if cs.any (fun e => e.1 = id) then cs.map Prod.fst
        else cs.map Prod.fst ++ [id] := by
  unfold clientsSet
  by_cases h : cs.any (fun e => e.1 = id) = true
  · rw [if_pos h, if_pos h, List.map_map]
    apply List.map_congr_left
    intro e he
    by_cases he1 : e.1 = id <;> simp [he1]
  · rw [if_neg h, if_neg h, List.map_append]
    rfl

/-- Claim C6 amended: the directory binds each peer id to at most one
channel handle at every instant — its keys stay duplicate-free under
every sequence of register messages and channel closes — while a
channel handle that registers two different peer ids becomes bound to
both of them. -/
theorem directory_keys_nodup (es : List WSEvent) (st : RelayState)
    (h : (st.clients.map Prod.fst).Nodup) :
    ((List.foldl wsStep st es).clients.map Prod.fst).Nodup := by
  induction es generalizing st with
  | nil => simpa using h
  | cons e es ih =>
      rw [List.foldl_cons]
      apply ih
      cases e with
      | register c p =>
          show (((wsMessage [] st [] c (.register p)).2.1).clients.map
            Prod.fst).Nodup
          simp only [wsMessage]
          rw [clientsSet_keys]
          by_cases hc : st.clients.any (fun e => e.1 = p) = true
          · rwa [if_pos hc]
          · rw [if_neg hc]
            have hp : p ∉ st.clients.map Prod.fst := by
              intro hmem
              rcases List.mem_map.mp hmem with ⟨e, he, he1⟩
              exact (List.any_eq_false.mp (Bool.eq_false_iff.mpr hc) e he)
                (by simpa using he1)
            simp [List.nodup_append, h, hp]
      | close c =>
          show ((wsClose st c).clients.map Prod.fst).Nodup
          unfold wsClose
          cases (st.curPeer.find? (fun e => e.1 = c)).map (fun e => e.2) with
          | none => exact h
          | some p =>
              exact ((List.filter_sublist _).map Prod.fst).nodup h

/-- Witness for the amended C6 invariant: a concrete event sequence
starting from the empty directory. -/
theorem directory_keys_nodup_witness :
    ((List.foldl wsStep ⟨[], []⟩
        [WSEvent.register 0 "X", WSEvent.close 0,
         WSEvent.register 1 "Y", WSEvent.register 1 "Z"]).clients.map
      Prod.fst).Nodup :=
  directory_keys_nodup _ _ (by decide)

/-! ## C7 -/

/-- Claim C7: handling `register{peerId}` synchronously replies on the
same channel with a snapshot of the peer list whose entries carry
exactly `id`, `name`, `capabilities`, `lastSeen`, and leaves the peer
registry unchanged. -/
theorem ws_register_snapshot (reg : Registry) (st : RelayState)
    (openChans : List ChanId) (c : ChanId) (p : String) :
    (wsMessage reg st openChans c (.register p)).1 = reg
    ∧ (wsMessage reg st openChans c (.register p)).2.2
        = [.send c (.peerList (reg.map (fun r =>
            PeerListEntry.mk r.id r.name r.capabilities r.lastSeen)))] :=
  ⟨rfl, rfl⟩

/-! ## C8 -/

/-- Claim C8: `Get`, `Heartbeat` and `Delete` on an id not in the
registry each fail with not-found and leave the registry unchanged; on
a present id, `Heartbeat` sets that record's `lastSeen` to the current
time and returns the new `lastSeen`. -/
theorem keyed_routes_spec :
    (∀ (reg : Registry) (id : String) (now : Int),
        mapGet reg id = none →
          getPeer reg id = (.error .notFound, reg)
          ∧ heartbeat reg id now = (.error .notFound, reg)
          ∧ deletePeer reg id = (.error .notFound, reg))
    ∧ (∀ (reg : Registry) (id : String) (now : Int) (p : PeerRecord),
        mapGet reg id = some p →
          (heartbeat reg id now).1 = .ok now
          ∧ mapGet (heartbeat reg id now).2 id
              = some { p with lastSeen := now }) := by
  constructor
  · intro reg id now h
    refine ⟨?_, ?_, ?_⟩ <;> simp [getPeer, heartbeat, deletePeer, h]
  · intro reg id now p h
    refine ⟨by simp [heartbeat, h], ?_⟩
    simp only [heartbeat, h]
    rw [← mapGet_some_id h]
    exact mapGet_mapSet_self reg _

/-- Witness for C8: a concrete missing id fails all three routes on a
one-record registry, and a concrete heartbeat refreshes `lastSeen`. -/
theorem keyed_routes_spec_witness :
    (getPeer [samplePeer 4 7] "missing-peer-id" = (.error .notFound, [samplePeer 4 7])
      ∧ heartbeat [samplePeer 4 7] "missing-peer-id" 9
          = (.error .notFound, [samplePeer 4 7])
      ∧ deletePeer [samplePeer 4 7] "missing-peer-id"
          = (.error .notFound, [samplePeer 4 7]))
    ∧ ((heartbeat [samplePeer 4 7] "sample-peer-4" 9).1 = .ok 9
      ∧ mapGet (heartbeat [samplePeer 4 7] "sample-peer-4" 9).2 "sample-peer-4"
          = some { samplePeer 4 7 with lastSeen := 9 }) :=
  ⟨keyed_routes_spec.1 [samplePeer 4 7] "missing-peer-id" 9 (by decide),
   keyed_routes_spec.2 [samplePeer 4 7] "sample-peer-4" 9 (samplePeer 4 7)
     (by decide)⟩

/-! ## C9 -/

/-- One registration request with its request-time metadata. -/
structure RegisterRequest where
  inp : RegisterInput
  now : Int
  userAgent : String
  ipAddress : String
deriving Repr, DecidableEq

/-- Serialized execution of one registration handler: the Node event
loop runs each handler atomically, so a concurrent batch executes as
some interleaving, i.e. some list order. -/
def applyRegister (reg : Registry) (r : RegisterRequest) : Registry :=
  (register reg r.inp r.now r.userAgent r.ipAddress).2

theorem mapSet_ids_append (reg : Registry) (p : PeerRecord)
    (hfresh : p.id ∉ reg.map (fun q => q.id)) :
    (mapSet reg p).map (fun q => q.id)
      = reg.map (fun q => q.id) ++ [p.id] := by
  have hany : reg.any (fun q => q.id = p.id) = false := by
    rw [List.any_eq_false]
    intro x hx
    simp only [decide_eq_true_eq]
    intro hxid
    exact hfresh (List.mem_map.mpr ⟨x, hx, hxid⟩)
  unfold mapSet
  rw [if_neg (by simp [hany]), List.map_append]
  rfl

theorem applyRegister_ids (reg : Registry) (r : RegisterRequest)
    (hv : validatePeerData r.inp.id r.inp.ip r.inp.port = [])
    (hfresh : (r.inp.id.getD "") ∉ reg.map (fun p => p.id)) :
    (applyRegister reg r).map (fun p => p.id)
      = reg.map (fun p => p.id) ++ [r.inp.id.getD ""] := by
  simp only [applyRegister, register, hv]
  simp only [List.length_nil, gt_iff_lt, lt_self_iff_false, if_false]
  exact mapSet_ids_append reg _ hfresh

theorem foldl_applyRegister_ids (rs : List RegisterRequest) :
    ∀ reg : Registry,
      (∀ r ∈ rs, validatePeerData r.inp.id r.inp.ip r.inp.port = []) →
      (reg.map (fun p => p.id)
          ++ rs.map (fun r => r.inp.id.getD "")).Nodup →
      (List.foldl applyRegister reg rs).map (fun p => p.id)
        = reg.map (fun p => p.id) ++ rs.map (fun r => r.inp.id.getD "") := by
  induction rs with
  | nil => intro reg _ _; simp
  | cons r rs ih =>
      intro reg hv hnd
      have hfresh : (r.inp.id.getD "") ∉ reg.map (fun p => p.id) := by
        rcases List.nodup_append.mp hnd with ⟨_, _, hdisj⟩
        intro hmem
        exact hdisj hmem (by simp)
      have hstep := applyRegister_ids reg r (hv r (by simp)) hfresh
      have hnd2 : ((applyRegister reg r).map (fun p => p.id)
          ++ rs.map (fun x => x.inp.id.getD "")).Nodup := by
        rw [hstep, List.append_assoc]
        simpa using hnd
      rw [List.foldl_cons,
        ih (applyRegister reg r) (fun x hx => hv x (by simp [hx])) hnd2,
        hstep, List.append_assoc]
      rfl

theorem activeStage_sublist (q : ListQuery) (now : Int)
    (l : List PeerRecord) : (activeStage q now l).Sublist l := by
  unfold activeStage
  by_cases h : q.active = true
  · rw [if_pos h]; exact List.filter_sublist _
  · rw [if_neg h]

theorem capabilityStage_sublist (q : ListQuery) (l : List PeerRecord) :
    (capabilityStage q l).Sublist l := by
  unfold capabilityStage
  rcases q.capability with _ | c
  · exact List.Sublist.refl _
  · show (if c = "" then l else
        l.filter (fun p => p.capabilities.contains c)).Sublist l
    by_cases hce : c = ""
    · rw [if_pos hce]
    · rw [if_neg hce]; exact List.filter_sublist _

theorem versionStage_sublist (q : ListQuery) (l : List PeerRecord) :
    (versionStage q l).Sublist l := by
  unfold versionStage
  rcases q.version with _ | v
  · exact List.Sublist.refl _
  · show (if v = "" then l else
        l.filter (fun p => p.version = v)).Sublist l
    by_cases hve : v = ""
    · rw [if_pos hve]
    · rw [if_neg hve]; exact List.filter_sublist _

theorem filteredPeers_sublist (reg : Registry) (q : ListQuery) (now : Int) :
    (filteredPeers reg q now).Sublist reg := by
  exact ((versionStage_sublist q _).trans (capabilityStage_sublist q _)).trans
    (activeStage_sublist q now reg)

/-- Claim C9: registry operations are linearized — each handler runs
atomically on the event loop, so a concurrent batch of registrations
executes in some serial order; in every such order, every valid
registration succeeds regardless of the current registry, N
registrations of N distinct ids leave exactly those N records (no lost
updates), and any record a listing returns is the public view of a
complete stored record (never a partial update). -/
theorem concurrent_registration_spec :
    (∀ (reg : Registry) (r : RegisterRequest),
        validatePeerData r.inp.id r.inp.ip r.inp.port = [] →
        ∃ resp, (register reg r.inp r.now r.userAgent r.ipAddress).1
          = .ok resp)
    ∧ (∀ rs : List RegisterRequest,
        (∀ r ∈ rs, validatePeerData r.inp.id r.inp.ip r.inp.port = []) →
        (rs.map (fun r => r.inp.id.getD "")).Nodup →
        (List.foldl applyRegister [] rs).map (fun p => p.id)
            = rs.map (fun r => r.inp.id.getD "")
          ∧ (List.foldl applyRegister [] rs).length = rs.length)
    ∧ (∀ (reg : Registry) (q : ListQuery) (now : Int),
        ∀ pp ∈ (listPeers reg q now).peers, ∃ x ∈ reg, pp = publicView x) := by
  refine ⟨?_, ?_, ?_⟩
  · intro reg r hv
    simp [register, hv]
  · intro rs hv hnd
    have h := foldl_applyRegister_ids rs [] hv (by simpa using hnd)
    simp only [List.map_nil, List.nil_append] at h
    refine ⟨h, ?_⟩
    have := congrArg List.length h
    simpa using this
  · intro reg q now pp hpp
    simp only [listPeers, jsSlice] at hpp
    have h1 : pp ∈ (sortByLastSeenDesc (filteredPeers reg q now)).map
        publicView :=
      List.Sublist.mem hpp
        ((List.take_sublist _ _).trans (List.drop_sublist _ _))
    rcases List.mem_map.mp h1 with ⟨x, hx, hxe⟩
    have hx2 : x ∈ filteredPeers reg q now :=
      (sortByLastSeenDesc_perm _).mem_iff.mp hx
    exact ⟨x, List.Sublist.mem hx2 (filteredPeers_sublist reg q now), hxe.symm⟩

/-- Two concrete distinct valid registration requests. -/
def concReqs : List RegisterRequest :=
  [⟨⟨some "conc-peer-alpha", some "10.0.0.1", some 81, none, none, none⟩,
      1, "u1", "a1"⟩,
   ⟨⟨some "conc-peer-beta", some "10.0.0.2", some 82, none, none, none⟩,
      2, "u2", "a2"⟩]

/-- Witness for C9: both concrete registrations land, yielding exactly
their two ids. -/
theorem concurrent_registration_spec_witness :
    (List.foldl applyRegister [] concReqs).map (fun p => p.id)
        = ["conc-peer-alpha", "conc-peer-beta"]
      ∧ (List.foldl applyRegister [] concReqs).length = concReqs.length :=
  concurrent_registration_spec.2.1 concReqs (by decide) (by decide)

/-! ## C10 -/

/-- Redact the two request-metadata fields that no response carries. -/
def scrub (p : PeerRecord) : PeerRecord :=
  { p with userAgent := "", ipAddress := "" }

theorem scrub_id (p : PeerRecord) : (scrub p).id = p.id := rfl

theorem scrub_lastSeen (p : PeerRecord) : (scrub p).lastSeen = p.lastSeen :=
  rfl

theorem filter_map_scrub (f : PeerRecord → Bool)
    (hf : ∀ p, f (scrub p) = f p) (l : List PeerRecord) :
    (l.map scrub).filter f = (l.filter f).map scrub := by
  rw [List.filter_map]
  congr 1
  exact List.filter_congr (fun p _ => by simp [Function.comp, hf])

theorem find?_map_scrub (g : PeerRecord → Bool)
    (hg : ∀ p, g (scrub p) = g p) (l : List PeerRecord) :
    (l.map scrub).find? g = Option.map scrub (l.find? g) := by
  rw [List.find?_map]
  congr 2
  funext p
  simp [Function.comp, hg]

theorem activeStage_map_scrub (q : ListQuery) (now : Int)
    (l : List PeerRecord) :
    activeStage q now (l.map scrub) = (activeStage q now l).map scrub := by
  unfold activeStage
  by_cases h : q.active = true
  · rw [if_pos h, if_pos h]
    exact filter_map_scrub (isActive now) (fun p => rfl) l
  · rw [if_neg h, if_neg h]

theorem capabilityStage_map_scrub (q : ListQuery) (l : List PeerRecord) :
    capabilityStage q (l.map scrub) = (capabilityStage q l).map scrub := by
  unfold capabilityStage
  rcases q.capability with _ | c
  · rfl
  · show (if c = "" then l.map scrub
        else (l.map scrub).filter (fun p => p.capabilities.contains c))
      = (if c = "" then l
        else l.filter (fun p => p.capabilities.contains c)).map scrub
    by_cases hce : c = ""
    · rw [if_pos hce, if_pos hce]
    · rw [if_neg hce, if_neg hce]
      exact filter_map_scrub (fun p => p.capabilities.contains c)
        (fun p => rfl) l

theorem versionStage_map_scrub (q : ListQuery) (l : List PeerRecord) :
    versionStage q (l.map scrub) = (versionStage q l).map scrub := by
  unfold versionStage
  rcases q.version with _ | v
  · rfl
  · show (if v = "" then l.map scrub
        else (l.map scrub).filter (fun p => p.version = v))
      = (if v = "" then l else l.filter (fun p => p.version = v)).map scrub
    by_cases hve : v = ""
    · rw [if_pos hve, if_pos hve]
    · rw [if_neg hve, if_neg hve]
      exact filter_map_scrub (fun p => p.version = v) (fun p => rfl) l

theorem filteredPeers_map_scrub (reg : Registry) (q : ListQuery)
    (now : Int) :
    filteredPeers (reg.map scrub) q now
      = (filteredPeers reg q now).map scrub := by
  rw [filteredPeers, activeStage_map_scrub, capabilityStage_map_scrub,
    versionStage_map_scrub, filteredPeers]

theorem insertByLastSeen_map_scrub (p : PeerRecord) (l : List PeerRecord) :
    insertByLastSeen (scrub p) (l.map scrub)
      = (insertByLastSeen p l).map scrub := by
  induction l with
  | nil => rfl
  | cons q qs ih =>
      by_cases h : p.lastSeen ≥ q.lastSeen
      · simp only [List.map_cons, insertByLastSeen, scrub_lastSeen, if_pos h]
      · simp only [List.map_cons, insertByLastSeen, scrub_lastSeen, if_neg h,
          ih]

theorem sortByLastSeenDesc_map_scrub (l : List PeerRecord) :
    sortByLastSeenDesc (l.map scrub) = (sortByLastSeenDesc l).map scrub := by
  induction l with
  | nil => rfl
  | cons p ps ih =>
      simp only [List.map_cons, sortByLastSeenDesc, ih,
        insertByLastSeen_map_scrub]

theorem mapSet_map_scrub (l : List PeerRecord) (p : PeerRecord) :
    mapSet (l.map scrub) (scrub p) = (mapSet l p).map scrub := by
  unfold mapSet
  simp only [scrub_id]
  rw [List.any_map]
  have hpred : ((fun q : PeerRecord => decide (q.id = p.id)) ∘ scrub)
      = (fun q : PeerRecord => decide (q.id = p.id)) :=
    funext fun q => by simp [Function.comp, scrub_id]
  rw [hpred]
  by_cases h : l.any (fun q => q.id = p.id) = true
  · rw [if_pos h, if_pos h, List.map_map, List.map_map]
    apply List.map_congr_left
    intro x _
    by_cases hx : x.id = p.id <;> simp [Function.comp, scrub_id, scrub, hx]
  · rw [if_neg h, if_neg h, List.map_append]
    rfl

theorem length_of_map_scrub_eq {l1 l2 : List PeerRecord}
    (h : l1.map scrub = l2.map scrub) : l1.length = l2.length := by
  rw [← List.length_map l1 scrub, h, List.length_map]

theorem filter_length_of_map_scrub_eq (f : PeerRecord → Bool)
    (hf : ∀ p, f (scrub p) = f p) {l1 l2 : List PeerRecord}
    (h : l1.map scrub = l2.map scrub) :
    (l1.filter f).length = (l2.filter f).length := by
  rw [← List.length_map (l1.filter f) scrub, ← filter_map_scrub f hf, h,
    filter_map_scrub f hf, List.length_map]

theorem mapGet_map_scrub_eq {r1 r2 : Registry}
    (h : r1.map scrub = r2.map scrub) (id : String) :
    Option.map scrub (mapGet r1 id) = Option.map scrub (mapGet r2 id) := by
  unfold mapGet
  rw [← find?_map_scrub (fun p => p.id = id) (fun p => rfl),
    ← find?_map_scrub (fun p => p.id = id) (fun p => rfl), h]

/-- Claim C10: every stored record carries the requester metadata
(`userAgent`, `ipAddress`), yet the register, list and single-peer
lookup responses never depend on those two fields — two registries that
agree after redacting them produce identical responses. -/
theorem sensitive_metadata_noninterference (r1 r2 : Registry)
    (h : r1.map scrub = r2.map scrub) :
    (∀ (reg : Registry) (inp : RegisterInput) (now : Int) (ua ipa : String),
        validatePeerData inp.id inp.ip inp.port = [] →
        ∃ p, mapGet (register reg inp now ua ipa).2 (inp.id.getD "") = some p
          ∧ p.userAgent = ua ∧ p.ipAddress = ipa)
    ∧ (∀ (inp : RegisterInput) (now : Int) (ua ipa : String),
        (register r1 inp now ua ipa).1 = (register r2 inp now ua ipa).1)
    ∧ (∀ (q : ListQuery) (now : Int), listPeers r1 q now = listPeers r2 q now)
    ∧ (∀ id : String, (getPeer r1 id).1 = (getPeer r2 id).1) := by
  have hms : ∀ p : PeerRecord,
      (mapSet r1 p).map scrub = (mapSet r2 p).map scrub := by
    intro p
    rw [← mapSet_map_scrub, ← mapSet_map_scrub, h]
  have hms_len : ∀ p : PeerRecord,
      (mapSet r1 p).length = (mapSet r2 p).length := fun p =>
    length_of_map_scrub_eq (hms p)
  refine ⟨?_, ?_, ?_, ?_⟩
  · intro reg inp now ua ipa hv
    simp only [register, hv]
    simp only [List.length_nil, gt_iff_lt, lt_self_iff_false, if_false]
    exact ⟨_, mapGet_mapSet_self reg _, rfl, rfl⟩
  · intro inp now ua ipa
    by_cases hv : validatePeerData inp.id inp.ip inp.port = []
    · have hget := mapGet_map_scrub_eq h (inp.id.getD "")
      have hms_flen : ∀ p : PeerRecord,
          ((mapSet r1 p).filter (isActive now)).length
            = ((mapSet r2 p).filter (isActive now)).length := fun p =>
        filter_length_of_map_scrub_eq (isActive now) (fun x => rfl) (hms p)
      simp only [register, hv]
      simp only [List.length_nil, gt_iff_lt, lt_self_iff_false, if_false]
      rcases h1 : mapGet r1 (inp.id.getD "") with _ | e1 <;>
        rcases h2 : mapGet r2 (inp.id.getD "") with _ | e2
      · dsimp only
        rw [hms_len, hms_flen]
      · rw [h1, h2] at hget
        simp at hget
      · rw [h1, h2] at hget
        simp at hget
      · rw [h1, h2] at hget
        simp only [Option.map_some', Option.some.injEq] at hget
        have hra0 := congrArg PeerRecord.registeredAt hget
        have hcc0 := congrArg PeerRecord.connectionCount hget
        have hra : e1.registeredAt = e2.registeredAt := hra0
        have hcc : e1.connectionCount = e2.connectionCount := hcc0
        dsimp only
        rw [hra, hcc, hms_len, hms_flen]
    · have hpos : (validatePeerData inp.id inp.ip inp.port).length > 0 := by
        cases hv2 : validatePeerData inp.id inp.ip inp.port with
        | nil => exact absurd hv2 hv
        | cons a l => simp
      simp [register, if_pos hpos]
  · intro q now
    have hf : (filteredPeers r1 q now).map scrub
        = (filteredPeers r2 q now).map scrub := by
      rw [← filteredPeers_map_scrub, ← filteredPeers_map_scrub, h]
    have hs : (sortByLastSeenDesc (filteredPeers r1 q now)).map scrub
        = (sortByLastSeenDesc (filteredPeers r2 q now)).map scrub := by
      rw [← sortByLastSeenDesc_map_scrub, ← sortByLastSeenDesc_map_scrub, hf]
    have hmapsv : ∀ l : List PeerRecord,
        l.map publicView = (l.map scrub).map publicView := by
      intro l
      rw [List.map_map]
      exact List.map_congr_left (fun a _ => rfl)
    have hpv : (sortByLastSeenDesc (filteredPeers r1 q now)).map publicView
        = (sortByLastSeenDesc (filteredPeers r2 q now)).map publicView := by
      rw [hmapsv, hs, ← hmapsv]
    have hlen := length_of_map_scrub_eq hs
    simp only [listPeers]
    rw [hpv, hlen]
  · intro id
    have hget := mapGet_map_scrub_eq h id
    simp only [getPeer]
    rcases h1 : mapGet r1 id with _ | p1 <;>
      rcases h2 : mapGet r2 id with _ | p2
    · rfl
    · rw [h1, h2] at hget
      simp at hget
    · rw [h1, h2] at hget
      simp at hget
    · rw [h1, h2] at hget
      simp only [Option.map_some', Option.some.injEq] at hget
      have hok := congrArg
        (fun x => (Except.ok (publicView x) : Except PeerErr PublicPeer)) hget
      exact hok

/-- Witness for C10: two one-record registries differing only in the
stored `userAgent` and `ipAddress` give identical list, lookup and
register responses, while the stored record does carry the metadata. -/
theorem sensitive_metadata_noninterference_witness :
    (∃ p, mapGet (register []
        ⟨some "sample-peer-8", some "10.0.0.1", some 8080, none, none, none⟩
        3 "agent-A" "9.9.9.9").2 "sample-peer-8" = some p
      ∧ p.userAgent = "agent-A" ∧ p.ipAddress = "9.9.9.9")
    ∧ listPeers [samplePeer 5 3] ⟨none, false, none, none, none⟩ 4
        = listPeers [{ samplePeer 5 3 with
            userAgent := "other", ipAddress := "10.9.9.9" }]
          ⟨none, false, none, none, none⟩ 4
    ∧ (getPeer [samplePeer 5 3] "sample-peer-5").1
        = (getPeer [{ samplePeer 5 3 with
            userAgent := "other", ipAddress := "10.9.9.9" }]
          "sample-peer-5").1 := by
  have h := sensitive_metadata_noninterference [samplePeer 5 3]
    [{ samplePeer 5 3 with userAgent := "other", ipAddress := "10.9.9.9" }]
    (by decide)
  exact ⟨h.1 []
      ⟨some "sample-peer-8", some "10.0.0.1", some 8080, none, none, none⟩
      3 "agent-A" "9.9.9.9" (by decide),
    h.2.2.1 ⟨none, false, none, none, none⟩ 4, h.2.2.2 "sample-peer-5"⟩

end NoFace
